import Mathlib

/-
Verification development for the Friday personal-assistant backend.

The TypeScript services are shallowly embedded: pure computations become
Lean functions, database tables become explicit lists of rows threaded
through the operations, JavaScript exceptions become the `Except` monad,
and the generation model / external providers become explicit oracles
(functions or environment records) supplied as parameters.
-/

set_option maxHeartbeats 1000000

namespace Friday

/-! ### Answer synthesizer: the bounded tool loop (AgentService.answerQuestion) -/

/-- One tool invocation requested by the generation model
(an element of `message.tool_calls`). -/
structure ToolCallReq where
  id : String
  name : String
  args : String
deriving DecidableEq

/-- One generation-model response: `content` is `string | null` in the
OpenAI client, and `tool_calls` is the (possibly empty) list of requested
tool invocations. -/
structure ModelMsg where
  content : Option String
  toolCalls : List ToolCallReq
deriving DecidableEq

/-- JavaScript `s || d` on a `string | null` value: `null` and the empty
string are falsy, anything else is returned unchanged. -/
def jsStringOr (s : Option String) (d : String) : String :=
  match s with
  | none => d
  | some t => if t = "" then d else t

/-- The bounded loop of `AgentService.answerQuestion`.  `script i` is the
generation model's response to the `i`-th call; `iter` counts model calls
already made; `fuel` is the remaining allowance of the `for`-loop
(`iteration < 3`); `used` accumulates the names of the tools executed so
far (`toolsUsed`).  Returns (finalAnswer, number of model calls, toolsUsed).
When the fuel runs out, `finalAnswer` still holds its initial value `""`. -/
def answerLoopGo (script : Nat → ModelMsg) : Nat → Nat → List String → String × Nat × List String
  | iter, 0, used => ("", iter, used)
  | iter, fuel + 1, used =>
    let msg := script iter
    if msg.toolCalls = [] then
      (jsStringOr msg.content "Unable to generate answer.", iter + 1, used)
    else
      answerLoopGo script (iter + 1) fuel (used ++ msg.toolCalls.map (fun c => c.name))

/-- `AgentService.answerQuestion`, restricted to its tool loop: the loop
runs for at most 3 iterations, starting with no tool results and the
initial `finalAnswer = ''`. -/
def answerQuestionLoop (script : Nat → ModelMsg) : String × Nat × List String :=
  answerLoopGo script 0 3 []

/-- A concrete scripted generation model that always requests one tool
call and carries the nonempty content `r1`, `r2`, `r3`, ... in round 1, 2, 3, .... -/
def c1Script : Nat → ModelMsg :=
  fun i => ⟨some ("r" ++ toString (i + 1)), [⟨"call-1", "get_current_time", "\x7b\x7d"⟩]⟩

/-! ### Context store: idempotent ingestion (IngestionService, ProfileService) -/

/-- One `UserContext` row.  The embedding is a real vector; the claims
about ingestion never inspect it, only store it. -/
structure CtxRow where
  userId : String
  source : String
  sourceId : String
  content : String
  embedding : List ℝ
  createdAt : Nat
  updatedAt : Nat

/-- Whether a row matches the composite key `(userId, source, sourceId)`,
the `unique_source_item` constraint used by every `prisma.userContext.upsert`. -/
def CtxRow.matchesKey (r : CtxRow) (userId source sourceId : String) : Bool :=
  r.userId == userId && r.source == source && r.sourceId == sourceId

/-- The atomic `prisma.userContext.upsert` keyed by `unique_source_item`:
if a row with the key exists, its `content`, `embedding` and `updatedAt`
are replaced in place; otherwise a fresh row is appended. -/
def upsertContext (table : List CtxRow) (userId source sourceId content : String)
    (embedding : List ℝ) (now : Nat) : List CtxRow :=
  if table.any (fun r => r.matchesKey userId source sourceId) then
    table.map (fun r =>
      if r.matchesKey userId source sourceId then
        { r with content := content, embedding := embedding, updatedAt := now }
      else r)
  else
    table ++ [⟨userId, source, sourceId, content, embedding, now, now⟩]

/-- One ingestion operation, as issued by the three ingestion call sites:
`IngestionService.processCalendarEvent` (source `google_calendar`, keyed by
the event id), `IngestionService.processEmailMessage` (source `gmail`,
keyed by the message id), and `ProfileService.updateProfile` (source
`profile`, fixed sourceId `user_profile`). -/
inductive IngestOp where
  | calendar (userId eventId content : String) (embedding : List ℝ) (now : Nat)
  | email (userId messageId content : String) (embedding : List ℝ) (now : Nat)
  | profile (userId content : String) (embedding : List ℝ) (now : Nat)

/-- Apply one ingestion operation to the `UserContext` table. -/
def applyIngestOp (table : List CtxRow) : IngestOp → List CtxRow
  | .calendar userId eventId content embedding now =>
    upsertContext table userId "google_calendar" eventId content embedding now
  | .email userId messageId content embedding now =>
    upsertContext table userId "gmail" messageId content embedding now
  | .profile userId content embedding now =>
    upsertContext table userId "profile" "user_profile" content embedding now

/-- Apply a sequence of ingestion operations in order. -/
def applyIngestOps (table : List CtxRow) (ops : List IngestOp) : List CtxRow :=
  ops.foldl applyIngestOp table

/-- Number of rows in the table holding the composite key. -/
def keyCount (table : List CtxRow) (userId source sourceId : String) : Nat :=
  table.countP (fun r => r.matchesKey userId source sourceId)

/-! ### Vector store: cosine similarity and semantic search (VectorStore) -/

/-- `dotProduct` as accumulated by the loop in `VectorStore.cosineSimilarity`. -/
def dotProduct (a b : List ℝ) : ℝ := (List.zipWith (fun x y => x * y) a b).sum

/-- `normA` / `normB` as accumulated by the same loop: the sum of squares
of the vector's entries (the squared Euclidean norm). -/
def sumSquares (a : List ℝ) : ℝ := (a.map (fun x => x * x)).sum

/-- The value `dotProduct / (Math.sqrt(normA) * Math.sqrt(normB))`
computed by `VectorStore.cosineSimilarity` once the length check passed.
JavaScript division is total; the value is modelled in ℝ (where division
by zero yields the junk value 0 instead of NaN). -/
noncomputable def cosineSimVal (a b : List ℝ) : ℝ :=
  dotProduct a b / (Real.sqrt (sumSquares a) * Real.sqrt (sumSquares b))

/-- `VectorStore.cosineSimilarity`: throws `Vectors must have the same
length` when the inputs differ in length, and otherwise returns the
similarity value without any further validation. -/
noncomputable def cosineSimilarity (a b : List ℝ) : Except String ℝ :=
  if a.length ≠ b.length then Except.error "Vectors must have the same length"
  else Except.ok (cosineSimVal a b)

/-- One stored `UserContext` row as read by `VectorStore.searchSimilar`
(id, content, creation time and embedding; fields not used by the claims
are dropped). -/
structure SearchRow where
  id : String
  content : String
  createdAt : Int
  embedding : List ℝ

/-- A search result: the row together with its similarity score. -/
structure ScoredRow where
  row : SearchRow
  similarity : ℝ

/-- The `orderBy createdAt desc` order of the prisma fetch. -/
def byCreatedDesc (a b : SearchRow) : Prop := b.createdAt ≤ a.createdAt

/-- The descending-similarity order of the JavaScript
`.sort((a, b) => b.similarity - a.similarity)` comparator. -/
def bySimDesc (a b : ScoredRow) : Prop := b.similarity ≤ a.similarity

instance : DecidableRel byCreatedDesc :=
  fun a b => inferInstanceAs (Decidable (b.createdAt ≤ a.createdAt))

instance : IsTotal SearchRow byCreatedDesc :=
  ⟨fun a b => le_total b.createdAt a.createdAt⟩

instance : IsTrans SearchRow byCreatedDesc :=
  ⟨fun _ _ _ hab hbc => le_trans hbc hab⟩

noncomputable instance : DecidableRel bySimDesc :=
  fun a b => inferInstanceAs (Decidable (b.similarity ≤ a.similarity))

instance : IsTotal ScoredRow bySimDesc :=
  ⟨fun a b => le_total b.similarity a.similarity⟩

instance : IsTrans ScoredRow bySimDesc :=
  ⟨fun _ _ _ hab hbc => le_trans hbc hab⟩

/-- The prisma fetch of all of the user's contexts, `orderBy createdAt
desc`; modelled as a stable descending sort of the stored table. -/
def fetchByCreatedDesc (table : List SearchRow) : List SearchRow :=
  table.insertionSort byCreatedDesc

/-- Scoring one fetched row: `cosineSimilarity(queryEmbedding, embedding)`
attached to the row's fields; a thrown length error propagates. -/
noncomputable def scoreRow (q : List ℝ) (c : SearchRow) : Except String ScoredRow :=
  (cosineSimilarity q c.embedding).map (fun s => ScoredRow.mk c s)

/-- Scoring every fetched row in order (the `.map` over `contexts`): the
first thrown length error aborts the whole traversal, as a JavaScript
exception aborts `Array.prototype.map`. -/
noncomputable def scoreRows (q : List ℝ) : List SearchRow → Except String (List ScoredRow)
  | [] => Except.ok []
  | c :: cs =>
    match scoreRow q c with
    | Except.error e => Except.error e
    | Except.ok s =>
      match scoreRows q cs with
      | Except.error e => Except.error e
      | Except.ok ss => Except.ok (s :: ss)

/-- `VectorStore.searchSimilar`: embed the query (the embedding is the
`q` parameter), fetch all the user's contexts newest-first, score each
one against the query (any length mismatch aborts the whole search), sort
descending by similarity with JavaScript's stable sort, and keep the
first `limit` results. -/
noncomputable def searchSimilar (q : List ℝ) (table : List SearchRow) (limit : Nat) :
    Except String (List ScoredRow) :=
  match scoreRows q (fetchByCreatedDesc table) with
  | Except.error e => Except.error e
  | Except.ok scored => Except.ok ((scored.insertionSort bySimDesc).take limit)

/-- The tie-breaking property of C5: among equal-similarity results the
newer row comes first. -/
def tieByRecency (a b : ScoredRow) : Prop :=
  a.similarity = b.similarity → b.row.createdAt ≤ a.row.createdAt

/-! ### Blended retrieval (VectorStore.getRelevantContext) -/

/-- An entry of the `combined` list of `getRelevantContext`: the entry id
and its blended score (the other row fields play no role in the claims). -/
structure BlendEntry where
  id : String
  score : ℝ

/-- First `forEach` of `getRelevantContext`: the semantic results pushed
onto `combined`, deduplicated by id through the `seenIds` set, each
scored `similarity * semanticWeight`.  Returns the pushed entries and the
final `seenIds`. -/
noncomputable def semPass (w : ℝ) : List (String × ℝ) → List String → List BlendEntry × List String
  | [], seen => ([], seen)
  | (i, s) :: rest, seen =>
    if i ∈ seen then semPass w rest seen
    else
      let p := semPass w rest (i :: seen)
      (⟨i, s * w⟩ :: p.1, p.2)

/-- Second `forEach`: the recent results with their index, skipped when
the id was already seen, otherwise pushed with temporal score
`(1 - index / recentLimit) * (1 - semanticWeight)`. -/
noncomputable def recPass (recentLimit : Nat) (w : ℝ) : List String → Nat → List String → List BlendEntry
  | [], _, _ => []
  | i :: rest, idx, seen =>
    if i ∈ seen then recPass recentLimit w rest (idx + 1) seen
    else
      ⟨i, (1 - (idx : ℝ) / (recentLimit : ℝ)) * (1 - w)⟩ ::
        recPass recentLimit w rest (idx + 1) (i :: seen)

/-- Sort order of the final
`combined.sort((a, b) => (b.similarity || 0) - (a.similarity || 0))`. -/
def byScoreDesc (a b : BlendEntry) : Prop := b.score ≤ a.score

noncomputable instance : DecidableRel byScoreDesc :=
  fun a b => inferInstanceAs (Decidable (b.score ≤ a.score))

instance : IsTotal BlendEntry byScoreDesc :=
  ⟨fun a b => le_total b.score a.score⟩

instance : IsTrans BlendEntry byScoreDesc :=
  ⟨fun _ _ _ hab hbc => le_trans hbc hab⟩

/-- The `combined` list of `VectorStore.getRelevantContext`, as a
function of the semantic results (id with raw similarity, in rank order)
and the recent results (ids, newest first): semantic entries are pushed
first with weighted scores, then unseen recent entries with temporal
scores, and the result is sorted descending by blended score with
JavaScript's stable sort. -/
noncomputable def getRelevantCombined (semantic : List (String × ℝ)) (recent : List String)
    (recentLimit : Nat) (w : ℝ) : List BlendEntry :=
  let p := semPass w semantic []
  (p.1 ++ recPass recentLimit w recent 0 p.2).insertionSort byScoreDesc

/-! ### Tool executor (ToolService) -/

/-- The external environment a tool execution runs against: the two API
keys and the outcome of each provider call (`Except.error` models an
axios rejection, i.e. a thrown provider error). -/
structure ToolEnv where
  googleMapsKey : Option String
  weatherKey : Option String
  routesResponse : Except String (List String)
  placesResponse : Except String (Option (List String))
  geocodeResponse : Except String (List String)
  forecastResponse : Except String (List String)
  nowIso : String
  validTimezone : String → Bool

/-- The JSON payload a tool places in `ToolResult.result`: either one of
the in-band error objects the tools return for expected failures, or a
success payload (whose provider-derived fields are carried opaquely). -/
inductive ToolPayload where
  | configError (error message : String)
  | notFound (error message : String)
  | directions (origin destination : Option String) (route : String)
  | places (location query : Option String) (results : List String)
  | weather (slot : String)
  | currentTime (iso : String) (tzError : Bool)
deriving DecidableEq

/-- The parameter object handed to `executeTool`; absent JavaScript
properties are `none`. -/
structure ToolParams where
  origin : Option String
  destination : Option String
  departureTime : Option String
  location : Option String
  query : Option String
  radius : Option Nat
  date : Option String
  timezone : Option String
deriving DecidableEq

/-- `ToolService.getDirections`: config-error object without a key,
rethrown provider error (with the `Google Routes API error:` prefix), a
`No routes found` object for an empty route list, and otherwise a
directions payload. -/
def getDirections (env : ToolEnv) (origin destination : Option String)
    (departureTime : Option String) : Except String ToolPayload :=
  match env.googleMapsKey with
  | none => Except.ok (ToolPayload.configError "Google Maps API key not configured"
      "Set GOOGLE_MAPS_API_KEY in .env to enable directions")
  | some _ =>
    match env.routesResponse with
    | Except.error e => Except.error ("Google Routes API error: " ++ e)
    | Except.ok routes =>
      if routes.isEmpty then
        Except.ok (ToolPayload.notFound "No routes found"
          "Could not find a route between the locations")
      else
        Except.ok (ToolPayload.directions origin destination (routes.headD ""))

/-- `ToolService.searchPlaces`: config-error object without a key,
rethrown provider error (prefix `Google Places API error:`), an empty
result list when the response carries no `places` field, else the mapped
places. -/
def searchPlaces (env : ToolEnv) (location query : Option String)
    (radius : Option Nat) : Except String ToolPayload :=
  match env.googleMapsKey with
  | none => Except.ok (ToolPayload.configError "Google Maps API key not configured"
      "Set GOOGLE_MAPS_API_KEY in .env to enable place search")
  | some _ =>
    match env.placesResponse with
    | Except.error e => Except.error ("Google Places API error: " ++ e)
    | Except.ok none => Except.ok (ToolPayload.places location query [])
    | Except.ok (some ps) => Except.ok (ToolPayload.places location query ps)

/-- `ToolService.getWeather`: config-error object without a key; the
geocode call and the forecast call may both throw (rethrown with the
`Weather API error:` prefix); an empty geocode result yields the
`Location not found` object; otherwise the forecast slot nearest the
requested date (carried opaquely). -/
def getWeather (env : ToolEnv) (location : Option String)
    (date : Option String) : Except String ToolPayload :=
  match env.weatherKey with
  | none => Except.ok (ToolPayload.configError "Weather API key not configured"
      "Set WEATHER_API_KEY in .env to enable weather forecast")
  | some _ =>
    match env.geocodeResponse with
    | Except.error e => Except.error ("Weather API error: " ++ e)
    | Except.ok geo =>
      if geo.isEmpty then
        Except.ok (ToolPayload.notFound "Location not found" "Could not geocode location")
      else
        match env.forecastResponse with
        | Except.error e => Except.error ("Weather API error: " ++ e)
        | Except.ok slots => Except.ok (ToolPayload.weather (slots.headD ""))

/-- `ToolService.getCurrentTime`: never fails; an invalid timezone only
sets an in-payload error flag. -/
def getCurrentTime (env : ToolEnv) (timezone : Option String) : ToolPayload :=
  match timezone with
  | none => ToolPayload.currentTime env.nowIso false
  | some tz => ToolPayload.currentTime env.nowIso (!(env.validTimezone tz))

/-- The `ToolResult` record: tool name, `result` payload and optional
top-level `error` string. -/
structure ToolResult where
  toolName : String
  result : Option ToolPayload
  error : Option String
deriving DecidableEq

/-- The names of the four registered tools. -/
def knownToolNames : List String :=
  ["get_directions", "search_places", "get_weather", "get_current_time"]

/-- The body of the `switch` in `ToolService.executeTool`, before the
surrounding try/catch: dispatch by name; an unknown name yields a
`ToolResult` whose `error` field is set; a thrown provider error
propagates in the exception monad. -/
def executeToolExc (toolName : String) (p : ToolParams) (env : ToolEnv) :
    Except String ToolResult :=
  if toolName = "get_directions" then
    (getDirections env p.origin p.destination p.departureTime).map
      (fun r => ToolResult.mk toolName (some r) none)
  else if toolName = "search_places" then
    (searchPlaces env p.location p.query p.radius).map
      (fun r => ToolResult.mk toolName (some r) none)
  else if toolName = "get_weather" then
    (getWeather env p.location p.date).map
      (fun r => ToolResult.mk toolName (some r) none)
  else if toolName = "get_current_time" then
    Except.ok (ToolResult.mk toolName (some (getCurrentTime env p.timezone)) none)
  else
    Except.ok (ToolResult.mk toolName none (some ("Unknown tool: " ++ toolName)))

/-- `ToolService.executeTool`: the switch wrapped in the catch-all that
converts any thrown error into a `ToolResult` carrying the error string. -/
def executeTool (toolName : String) (p : ToolParams) (env : ToolEnv) : ToolResult :=
  match executeToolExc toolName p env with
  | Except.ok r => r
  | Except.error e => ToolResult.mk toolName none (some e)

/-- A `ToolResult` that exposes its failure as data: either the top-level
`error` string is set, or the payload is one of the in-band error
objects. -/
def ToolResult.reportsFailure (tr : ToolResult) : Prop :=
  tr.error ≠ none ∨
  (∃ e m, tr.result = some (ToolPayload.configError e m)) ∨
  (∃ e m, tr.result = some (ToolPayload.notFound e m))

/-- A concrete tool environment with no credentials and benign providers,
used as a witness input. -/
def c8Env : ToolEnv :=
  ⟨none, none, Except.ok [], Except.ok none, Except.ok [], Except.ok [],
    "2025-10-11T00:00:00Z", fun _ => true⟩

/-- A concrete empty parameter object, used as a witness input. -/
def c8Params : ToolParams :=
  ⟨none, none, none, none, none, none, none, none⟩

/-! ### Feed lifecycle: status update validation (index.ts handler + FeedService) -/

/-- The feed item status enumeration (prisma `FeedItemStatus`). -/
inductive FeedItemStatus where
  | NEW
  | VIEWED
  | ACTED
  | DISMISSED
  | SNOOZED
  | COMPLETED
  | EXPIRED
deriving DecidableEq

/-- A PATCH /feed/:feedItemId/status request body: `status` may be
absent, `snoozeUntil` is an optional date. -/
structure StatusRequest where
  status : Option FeedItemStatus
  snoozeUntil : Option Nat
deriving DecidableEq

/-- The handler's response: 200 with the updated fields, 400 for a
missing status, or 500 when the service call throws. -/
inductive StatusResponse where
  | ok (status : FeedItemStatus) (snoozeUntil : Option Nat)
  | badRequest (error : String)
  | serverError (error : String)
deriving DecidableEq

/-- Modelled from the spec: `FeedService.updateFeedItemStatus` is not in
the repository snapshot (only its caller in index.ts and the feed API
documentation are).  Per the spec, `updateStatus(feedItemId, status,
snoozeUntil?)` requires `snoozeUntil` to be present when the status is
SNOOZED, rejecting otherwise as a validation error, and otherwise applies
the update. -/
def updateFeedItemStatus (status : FeedItemStatus) (snoozeUntil : Option Nat) :
    Except String (FeedItemStatus × Option Nat) :=
  if status = FeedItemStatus.SNOOZED ∧ snoozeUntil = none then
    Except.error "snoozeUntil is required when status is SNOOZED"
  else
    Except.ok (status, snoozeUntil)

/-- The PATCH /feed/:feedItemId/status handler from index.ts: a missing
`status` is rejected with 400 `Status is required`; otherwise the service
is called, and a thrown validation error surfaces as the handler's 500
response. -/
def patchFeedStatusHandler (req : StatusRequest) : StatusResponse :=
  match req.status with
  | none => StatusResponse.badRequest "Status is required"
  | some s =>
    match updateFeedItemStatus s req.snoozeUntil with
    | Except.error _ => StatusResponse.serverError "Failed to update feed item status"
    | Except.ok (st, sn) => StatusResponse.ok st sn

/-! ### Feed synthesizer: idempotent generation (FeedService.generateNewFeedItems) -/

/-- One loaded ContextEntry as the feed generator sees it: its id and its
source category. -/
structure FeedCtx where
  id : String
  source : String
deriving DecidableEq

/-- The composite FeedItem `sourceId` derived from the generating
ContextEntry: `source-contextId`. -/
def feedSourceKey (e : FeedCtx) : String := e.source ++ "-" ++ e.id

/-- The persistent state the feed generator touches: the user's
ContextEntry rows (newest first) and the `sourceId` composite keys of the
user's existing FeedItems. -/
structure FeedDb where
  contexts : List FeedCtx
  feedKeys : List String
deriving DecidableEq

/-- The per-run counters reported by POST /feed/generate. -/
structure GenCounts where
  generated : Nat
  skipped : Nat
  errors : Nat
deriving DecidableEq

/-- The most recent N (20) ContextEntry rows loaded by a generation run. -/
def loadedOf (db : FeedDb) : List FeedCtx := db.contexts.take 20

/-- The loaded rows whose composite key is not yet on any FeedItem — the
idempotency boundary. -/
def newEntriesOf (db : FeedDb) : List FeedCtx :=
  (loadedOf db).filter (fun e => !(db.feedKeys.contains (feedSourceKey e)))

/-- Modelled from the spec: the decision made for one structured item of
`FeedService.generateNewFeedItems` (absent from the repository snapshot).
Each item references its originating excerpt by 1-based index; an invalid
or out-of-range index is an error; a resolved entry whose composite key
is already on a FeedItem is a per-item error (the insert is guarded by
the composite `sourceId` uniqueness); otherwise the item is persisted,
yielding the new key. -/
def persistStep (keys : List String) (entries : List FeedCtx) (idx : Nat) : Option String :=
  if idx = 0 then none
  else
    match entries.get? (idx - 1) with
    | none => none
    | some e => if feedSourceKey e ∈ keys then none else some (feedSourceKey e)

/-- Modelled from the spec: the per-item persist loop of
`FeedService.generateNewFeedItems`: fold `persistStep` over the items,
counting a persisted item as generated and everything else as a per-item
error, threading the growing set of feed keys.  Returns (generated,
errors, final feed keys). -/
def persistItems (keys : List String) (entries : List FeedCtx) :
    List Nat → Nat × Nat × List String
  | [] => (0, 0, keys)
  | idx :: rest =>
    match persistStep keys entries idx with
    | none =>
      let r := persistItems keys entries rest
      (r.1, r.2.1 + 1, r.2.2)
    | some k =>
      let r := persistItems (k :: keys) entries rest
      (r.1 + 1, r.2.1, r.2.2)

/-- Modelled from the spec: `FeedService.generateNewFeedItems` (absent
from the repository snapshot; only its caller in index.ts and the feed
API documentation are present).  Load the most recent 20 ContextEntry
rows; keep those whose composite key is not on any existing FeedItem; if
none are new return generated=0, skipped=all loaded, errors=0 without
calling the model; otherwise prompt the generation model once — `model`
returns the structured items, each as the 1-based index of its
originating excerpt — and persist each item with the uniqueness guard. -/
def generateNewFeedItems (model : List FeedCtx → List Nat) (db : FeedDb) :
    GenCounts × FeedDb :=
  if (newEntriesOf db).isEmpty then
    (GenCounts.mk 0 (loadedOf db).length 0, db)
  else
    let r := persistItems db.feedKeys (newEntriesOf db) (model (newEntriesOf db))
    (GenCounts.mk r.1 ((loadedOf db).length - (newEntriesOf db).length) r.2.1,
      FeedDb.mk db.contexts r.2.2)

/-- A concrete one-row database with no feed items yet, used as a witness
input. -/
def c2Db : FeedDb := FeedDb.mk [FeedCtx.mk "c1" "gmail"] []

/-- A generation model that emits one item per excerpt, in order — the
benign behaviour the spec's idempotency property assumes. -/
def c2Model : List FeedCtx → List Nat := fun l => List.range' 1 l.length

/-! ### Theorems -/

/-- Claim C1, counterexample: with a scripted generation model whose every
response carries nonempty content and requests a tool call, the loop makes
exactly 3 model calls but the returned answer is the empty string, which is
neither the last available model response (`"r3"`) nor the fallback
`"unable to generate answer"` string (in either the claimed or the source
capitalization). -/
theorem c1_counterexample :
    (answerQuestionLoop c1Script).1 = "" ∧
    (answerQuestionLoop c1Script).2.1 = 3 ∧
    (c1Script 2).content = some "r3" ∧
    ("" : String) ≠ "r3" ∧
    ("" : String) ≠ "unable to generate answer" ∧
    ("" : String) ≠ "Unable to generate answer." := by
  refine ⟨by decide, by decide, by decide, by decide, by decide, by decide⟩

/-- Claim C1 (amended): for every scripted sequence of generation-model
responses in which each of the first 3 responses requests at least one tool
call, `answerQuestion` terminates after exactly 3 rounds of model calls
(never a 4th) and returns the empty string as the answer — `finalAnswer`
keeps its initial value; the fallback string is used only when a response
without tool calls has null or empty content. -/
theorem c1_bounded_loop (script : Nat → ModelMsg)
    (h : ∀ i, i < 3 → (script i).toolCalls ≠ []) :
    (answerQuestionLoop script).1 = "" ∧ (answerQuestionLoop script).2.1 = 3 := by
  have h0 := h 0 (by norm_num)
  have h1 := h 1 (by norm_num)
  have h2 := h 2 (by norm_num)
  simp [answerQuestionLoop, answerLoopGo, h0, h1, h2]

/-- Claim C1 witness: the bounded-loop theorem applied to the concrete
always-tool-calling script. -/
theorem c1_bounded_loop_witness :
    (∀ i, i < 3 → (c1Script i).toolCalls ≠ []) ∧
    (answerQuestionLoop c1Script).1 = "" ∧ (answerQuestionLoop c1Script).2.1 = 3 :=
  ⟨by decide, c1_bounded_loop c1Script (by decide)⟩

/-- Rewriting a row's content/embedding/updatedAt does not change which
composite keys it matches. -/
theorem matchesKey_update (r : CtxRow) (c : String) (e : List ℝ) (now : Nat)
    (u s sid : String) :
    CtxRow.matchesKey { r with content := c, embedding := e, updatedAt := now } u s sid
      = r.matchesKey u s sid := rfl

/-- `upsertContext` never increases the number of rows holding any given
composite key beyond one. -/
theorem keyCount_upsertContext_le (t : List CtxRow) (u s sid c : String)
    (e : List ℝ) (now : Nat) (u' s' sid' : String)
    (h : keyCount t u' s' sid' ≤ 1) :
    keyCount (upsertContext t u s sid c e now) u' s' sid' ≤ 1 := by
  unfold upsertContext
  split
  · -- update branch: keys are unchanged row by row
    rename_i hex
    unfold keyCount at h ⊢
    rw [List.countP_map]
    calc List.countP ((fun r => r.matchesKey u' s' sid') ∘ fun r =>
          if r.matchesKey u s sid then
            { r with content := c, embedding := e, updatedAt := now } else r) t
        = List.countP (fun r => r.matchesKey u' s' sid') t := by
          apply List.countP_congr
          intro r _
          by_cases hr : r.matchesKey u s sid <;> simp [hr, Function.comp, matchesKey_update]
      _ ≤ 1 := h
  · -- insert branch: the new row's key was absent from the table
    rename_i hex
    have hall : ∀ r ∈ t, ¬(r.matchesKey u s sid = true) := by
      intro r hr hmk
      exact hex (List.any_eq_true.mpr ⟨r, hr, hmk⟩)
    unfold keyCount at h ⊢
    rw [List.countP_append]
    by_cases hk : (CtxRow.mk u s sid c e now now).matchesKey u' s' sid'
    · have hz : List.countP (fun r => r.matchesKey u' s' sid') t = 0 := by
        rw [List.countP_eq_zero]
        intro r hr hmk
        apply hall r hr
        have hkey : (u = u' ∧ s = s') ∧ sid = sid' := by
          simpa [CtxRow.matchesKey] using hk
        simpa [CtxRow.matchesKey, hkey.1.1, hkey.1.2, hkey.2] using hmk
      simp [hz, hk]
    · simp only [List.countP_cons, List.countP_nil]
      simp [hk]
      exact h

/-- The composite-key invariant is preserved by every ingestion operation. -/
theorem keyCount_applyIngestOp_le (t : List CtxRow) (op : IngestOp)
    (u' s' sid' : String) (h : keyCount t u' s' sid' ≤ 1) :
    keyCount (applyIngestOp t op) u' s' sid' ≤ 1 := by
  cases op <;> exact keyCount_upsertContext_le _ _ _ _ _ _ _ _ _ _ h

/-- Claim C3: starting from any table in which each (userId, source,
sourceId) triple owns at most one ContextEntry, any sequence of ingestion
operations (calendar events, email messages, profile updates) preserves
that bound; moreover re-ingesting an existing key updates content,
embedding and updatedAt of the existing row in place: the row count is
unchanged, the key still owns exactly one row, and that row carries the
new content, embedding and updatedAt. -/
theorem c3_idempotent_ingestion (ops : List IngestOp) (table : List CtxRow)
    (hinv : ∀ u s sid, keyCount table u s sid ≤ 1) :
    (∀ u s sid, keyCount (applyIngestOps table ops) u s sid ≤ 1) ∧
    (∀ (t : List CtxRow) (u s sid c : String) (e : List ℝ) (now : Nat),
      keyCount t u s sid = 1 →
      (upsertContext t u s sid c e now).length = t.length ∧
      keyCount (upsertContext t u s sid c e now) u s sid = 1 ∧
      ∀ r ∈ upsertContext t u s sid c e now, r.matchesKey u s sid →
        r.content = c ∧ r.embedding = e ∧ r.updatedAt = now) := by
  constructor
  · intro u s sid
    induction ops generalizing table with
    | nil => exact hinv u s sid
    | cons op rest ih =>
      have hstep : ∀ u' s' sid', keyCount (applyIngestOp table op) u' s' sid' ≤ 1 :=
        fun u' s' sid' => keyCount_applyIngestOp_le table op u' s' sid' (hinv u' s' sid')
      exact ih (applyIngestOp table op) hstep
  · intro t u s sid c e now hone
    have hex : t.any (fun r => r.matchesKey u s sid) = true := by
      rw [List.any_eq_true]
      have hpos : 0 < List.countP (fun r => r.matchesKey u s sid) t := by
        unfold keyCount at hone; omega
      exact List.countP_pos_iff.mp hpos
    have hup : upsertContext t u s sid c e now =
        t.map (fun r => if r.matchesKey u s sid then
          { r with content := c, embedding := e, updatedAt := now } else r) := by
      unfold upsertContext
      rw [if_pos hex]
    refine ⟨by rw [hup]; exact t.length_map _, ?_, ?_⟩
    · unfold keyCount at hone ⊢
      rw [hup, List.countP_map]
      calc List.countP ((fun r => r.matchesKey u s sid) ∘ fun r =>
            if r.matchesKey u s sid then
              { r with content := c, embedding := e, updatedAt := now } else r) t
          = List.countP (fun r => r.matchesKey u s sid) t := by
            apply List.countP_congr
            intro r _
            by_cases hr : r.matchesKey u s sid <;>
              simp [hr, Function.comp, matchesKey_update]
        _ = 1 := hone
    · intro r hr hrk
      rw [hup] at hr
      obtain ⟨r0, _, hr0⟩ := List.mem_map.mp hr
      by_cases h0 : r0.matchesKey u s sid
      · rw [if_pos h0] at hr0
        subst hr0
        exact ⟨rfl, rfl, rfl⟩
      · rw [if_neg h0] at hr0
        subst hr0
        exact absurd hrk h0

/-- Claim C3 witness: the invariant theorem applied to a concrete table
(one calendar row) and a concrete operation sequence that re-ingests the
same calendar event with new content, checking the in-place update with
`keyCount = 1` discharged on the concrete table. -/
theorem c3_idempotent_ingestion_witness :
    (∀ u s sid, keyCount [CtxRow.mk "u1" "google_calendar" "ev1" "old" [] 0 0] u s sid ≤ 1) ∧
    keyCount [CtxRow.mk "u1" "google_calendar" "ev1" "old" [] 0 0] "u1" "google_calendar" "ev1" = 1 ∧
    ((∀ u s sid, keyCount (applyIngestOps [CtxRow.mk "u1" "google_calendar" "ev1" "old" [] 0 0]
        [IngestOp.calendar "u1" "ev1" "new" [] 5]) u s sid ≤ 1) ∧
     (upsertContext [CtxRow.mk "u1" "google_calendar" "ev1" "old" [] 0 0]
        "u1" "google_calendar" "ev1" "new" [] 5).length = 1) := by
  have hinv : ∀ u s sid,
      keyCount [CtxRow.mk "u1" "google_calendar" "ev1" "old" [] 0 0] u s sid ≤ 1 := by
    intro u s sid
    simp only [keyCount, List.countP_cons, List.countP_nil]
    by_cases h : (CtxRow.mk "u1" "google_calendar" "ev1" "old" [] 0 0).matchesKey u s sid <;>
      simp [h]
  have hmain := c3_idempotent_ingestion
    [IngestOp.calendar "u1" "ev1" "new" [] 5]
    [CtxRow.mk "u1" "google_calendar" "ev1" "old" [] 0 0] hinv
  have hone : keyCount [CtxRow.mk "u1" "google_calendar" "ev1" "old" [] 0 0]
      "u1" "google_calendar" "ev1" = 1 := by
    simp [keyCount, CtxRow.matchesKey]
  exact ⟨hinv, hone, hmain.1,
    (hmain.2 [CtxRow.mk "u1" "google_calendar" "ev1" "old" [] 0 0]
      "u1" "google_calendar" "ev1" "new" [] 5 hone).1⟩


/-- `dotProduct` over a cons pair of vectors. -/
theorem dotProduct_cons (x y : ℝ) (xs ys : List ℝ) :
    dotProduct (x :: xs) (y :: ys) = x * y + dotProduct xs ys := by
  simp [dotProduct]

/-- `sumSquares` over a cons. -/
theorem sumSquares_cons (x : ℝ) (xs : List ℝ) :
    sumSquares (x :: xs) = x * x + sumSquares xs := by
  simp [sumSquares]

/-- The squared norm accumulator is nonnegative. -/
theorem sumSquares_nonneg (a : List ℝ) : 0 ≤ sumSquares a := by
  unfold sumSquares
  apply List.sum_nonneg
  intro x hx
  obtain ⟨y, _, rfl⟩ := List.mem_map.mp hx
  exact mul_self_nonneg y

/-- The dot product of a vector with itself is its squared norm. -/
theorem dotProduct_self (a : List ℝ) : dotProduct a a = sumSquares a := by
  induction a with
  | nil => rfl
  | cons x xs ih => rw [dotProduct_cons, sumSquares_cons, ih]

/-- Cauchy–Schwarz for the loop accumulators: the square of the dot
product is at most the product of the squared norms. -/
theorem dotProduct_sq_le (a : List ℝ) : ∀ b : List ℝ,
    dotProduct a b ^ 2 ≤ sumSquares a * sumSquares b := by
  induction a with
  | nil =>
    intro b
    simp [dotProduct, sumSquares]
  | cons x xs ih =>
    intro b
    cases b with
    | nil =>
      simp [dotProduct, sumSquares]
    | cons y ys =>
      have h := ih ys
      have ha := sumSquares_nonneg xs
      have hb := sumSquares_nonneg ys
      rw [dotProduct_cons, sumSquares_cons, sumSquares_cons]
      rcases eq_or_lt_of_le hb with hB0 | hBpos
      · rw [← hB0] at h
        have hd : dotProduct xs ys = 0 := by
          have h2 : dotProduct xs ys ^ 2 = 0 :=
            le_antisymm (by simpa using h) (sq_nonneg _)
          exact pow_eq_zero_iff (two_ne_zero) |>.mp h2
        rw [hd, ← hB0]
        nlinarith [mul_nonneg ha (mul_self_nonneg y)]
      · nlinarith [sq_nonneg (x * sumSquares ys - y * dotProduct xs ys),
          mul_nonneg (add_nonneg (sq_nonneg y) hb) (sub_nonneg.mpr h)]

/-- The dot product is bounded in absolute value by the product of the
square roots of the squared norms. -/
theorem abs_dotProduct_le (a b : List ℝ) :
    |dotProduct a b| ≤ Real.sqrt (sumSquares a) * Real.sqrt (sumSquares b) := by
  have h1 : Real.sqrt (dotProduct a b ^ 2) ≤ Real.sqrt (sumSquares a * sumSquares b) :=
    Real.sqrt_le_sqrt (dotProduct_sq_le a b)
  rwa [Real.sqrt_sq_eq_abs, Real.sqrt_mul (sumSquares_nonneg a)] at h1

/-- Claim C7: for every pair of equal-length vectors with nonzero squared
norms, `cosineSimilarity` succeeds with a value in [-1, 1], and for every
vector with nonzero squared norm the cosine similarity of the vector with
itself is exactly 1. -/
theorem c7_similarity_bounds (a b : List ℝ) (hlen : a.length = b.length)
    (ha : sumSquares a ≠ 0) (hb : sumSquares b ≠ 0) :
    (∃ r, cosineSimilarity a b = Except.ok r ∧ -1 ≤ r ∧ r ≤ 1) ∧
    cosineSimilarity a a = Except.ok 1 := by
  have hsa : 0 < Real.sqrt (sumSquares a) :=
    Real.sqrt_pos.mpr ((sumSquares_nonneg a).lt_of_ne (Ne.symm ha))
  have hsb : 0 < Real.sqrt (sumSquares b) :=
    Real.sqrt_pos.mpr ((sumSquares_nonneg b).lt_of_ne (Ne.symm hb))
  have habs := abs_dotProduct_le a b
  constructor
  · refine ⟨cosineSimVal a b, ?_, ?_, ?_⟩
    · unfold cosineSimilarity
      rw [if_neg (fun hc => hc hlen)]
    · unfold cosineSimVal
      rw [le_div_iff (mul_pos hsa hsb)]
      have := (abs_le.mp habs).1
      linarith
    · unfold cosineSimVal
      rw [div_le_one (mul_pos hsa hsb)]
      exact (abs_le.mp habs).2
  · unfold cosineSimilarity
    rw [if_neg (fun hc => hc rfl)]
    unfold cosineSimVal
    rw [dotProduct_self, Real.mul_self_sqrt (sumSquares_nonneg a), div_self ha]

/-- Claim C7 witness: the bounds theorem applied at the concrete vectors
[1, 0] and [0, 1], whose squared norms are 1. -/
theorem c7_similarity_bounds_witness :
    ([(1 : ℝ), 0].length = [(0 : ℝ), 1].length) ∧
    sumSquares [(1 : ℝ), 0] ≠ 0 ∧ sumSquares [(0 : ℝ), 1] ≠ 0 ∧
    ((∃ r, cosineSimilarity [(1 : ℝ), 0] [(0 : ℝ), 1] = Except.ok r ∧ -1 ≤ r ∧ r ≤ 1) ∧
      cosineSimilarity [(1 : ℝ), 0] [(1 : ℝ), 0] = Except.ok 1) := by
  have h1 : sumSquares [(1 : ℝ), 0] ≠ 0 := by norm_num [sumSquares]
  have h2 : sumSquares [(0 : ℝ), 1] ≠ 0 := by norm_num [sumSquares]
  exact ⟨rfl, h1, h2, c7_similarity_bounds [(1 : ℝ), 0] [(0 : ℝ), 1] rfl h1 h2⟩

/-- Claim C6, counterexample: the zero vector [0, 0] has zero norm, yet
`cosineSimilarity([0, 0], [1, 1])` does not signal any failure: it
returns an ordinary (non-error) result — in JavaScript the division
produces NaN; no exception is thrown and no error value is produced. -/
theorem c6_counterexample :
    sumSquares [(0 : ℝ), 0] = 0 ∧
    (cosineSimilarity [(0 : ℝ), 0] [(1 : ℝ), 1]).isOk = true := by
  constructor
  · norm_num [sumSquares]
  · rfl

/-- Claim C6 (amended): when either input vector of the cosine-similarity
computation has zero norm (but the lengths agree), the computation does
not signal failure: it silently returns the ordinary quotient value (NaN
in JavaScript, the division-by-zero junk value in the real-number model);
the only failure `cosineSimilarity` ever signals is a length mismatch. -/
theorem c6_zero_norm_silent (a b : List ℝ) (hlen : a.length = b.length)
    (h : sumSquares a = 0 ∨ sumSquares b = 0) :
    cosineSimilarity a b = Except.ok (cosineSimVal a b) := by
  unfold cosineSimilarity
  rw [if_neg (fun hc => hc hlen)]

/-- Claim C6 witness: the amended theorem applied to vectors [1, 1] and
[0, 0], the second of which has zero norm. -/
theorem c6_zero_norm_silent_witness :
    ([(1 : ℝ), 1].length = [(0 : ℝ), 0].length) ∧
    (sumSquares [(1 : ℝ), 1] = 0 ∨ sumSquares [(0 : ℝ), 0] = 0) ∧
    cosineSimilarity [(1 : ℝ), 1] [(0 : ℝ), 0] =
      Except.ok (cosineSimVal [(1 : ℝ), 1] [(0 : ℝ), 0]) := by
  have h : sumSquares [(0 : ℝ), 0] = 0 := by norm_num [sumSquares]
  exact ⟨rfl, Or.inr h, c6_zero_norm_silent _ _ rfl (Or.inr h)⟩

/-- Scoring a list of rows fails with the length-mismatch error whenever
some row's embedding does not match the query's dimension. -/
theorem scoreRows_error (q : List ℝ) :
    ∀ l : List SearchRow, (∃ c ∈ l, c.embedding.length ≠ q.length) →
    scoreRows q l = Except.error "Vectors must have the same length" := by
  intro l
  induction l with
  | nil =>
    rintro ⟨c, hc, -⟩
    cases hc
  | cons c cs ih =>
    rintro ⟨d, hd, hlen⟩
    cases hsc : scoreRow q c with
    | error e =>
      have he : e = "Vectors must have the same length" := by
        unfold scoreRow cosineSimilarity at hsc
        by_cases hq : q.length ≠ c.embedding.length
        · rw [if_pos hq] at hsc
          cases hsc
          rfl
        · rw [if_neg hq] at hsc
          cases hsc
      subst he
      simp [scoreRows, hsc]
    | ok s =>
      have hd' : d ∈ cs := by
        rcases List.mem_cons.mp hd with rfl | h'
        · exfalso
          unfold scoreRow cosineSimilarity at hsc
          rw [if_pos (fun h => hlen h.symm)] at hsc
          cases hsc
        · exact h'
      simp [scoreRows, hsc, ih ⟨d, hd', hlen⟩]

/-- When scoring succeeds, the scored list is exactly the fetched list
with each row's cosine-similarity value attached. -/
theorem scoreRows_ok (q : List ℝ) :
    ∀ (l : List SearchRow) (scored : List ScoredRow),
      scoreRows q l = Except.ok scored →
      scored = l.map (fun c => ScoredRow.mk c (cosineSimVal q c.embedding)) := by
  intro l
  induction l with
  | nil =>
    intro scored h
    cases h
    rfl
  | cons c cs ih =>
    intro scored h
    unfold scoreRows at h
    cases hsc : scoreRow q c with
    | error e =>
      rw [hsc] at h
      cases h
    | ok s =>
      rw [hsc] at h
      cases hm : scoreRows q cs with
      | error e =>
        rw [hm] at h
        cases h
      | ok ss =>
        rw [hm] at h
        cases h
        have hs : s = ScoredRow.mk c (cosineSimVal q c.embedding) := by
          unfold scoreRow cosineSimilarity at hsc
          by_cases hq : q.length ≠ c.embedding.length
          · rw [if_pos hq] at hsc
            cases hsc
          · rw [if_neg hq] at hsc
            cases hsc
            rfl
        rw [hs, ih ss hm]
        rfl

/-- Claim C10: `cosineSimilarity` throws exactly the length-mismatch
error whenever its inputs differ in length, and consequently
`searchSimilar` fails as a whole (no partial results) whenever any stored
embedding's dimension differs from the query embedding's dimension. -/
theorem c10_dimension_mismatch :
    (∀ a b : List ℝ, a.length ≠ b.length →
      cosineSimilarity a b = Except.error "Vectors must have the same length") ∧
    (∀ (q : List ℝ) (table : List SearchRow) (limit : Nat),
      (∃ c ∈ table, c.embedding.length ≠ q.length) →
      searchSimilar q table limit = Except.error "Vectors must have the same length") := by
  constructor
  · intro a b h
    unfold cosineSimilarity
    rw [if_pos h]
  · rintro q table limit ⟨c, hc, hlen⟩
    have hc' : c ∈ fetchByCreatedDesc table := by
      unfold fetchByCreatedDesc
      exact ((List.perm_insertionSort byCreatedDesc table).mem_iff).mpr hc
    have herr := scoreRows_error q (fetchByCreatedDesc table) ⟨c, hc', hlen⟩
    unfold searchSimilar
    rw [herr]

/-- Claim C10 witness: both parts applied at a 1-dimensional query
against a 2-dimensional stored embedding. -/
theorem c10_dimension_mismatch_witness :
    ([(1 : ℝ)].length ≠ [(1 : ℝ), 2].length) ∧
    cosineSimilarity [(1 : ℝ)] [(1 : ℝ), 2] =
      Except.error "Vectors must have the same length" ∧
    searchSimilar [(1 : ℝ)] [SearchRow.mk "c2" "y" 0 [1, 2]] 10 =
      Except.error "Vectors must have the same length" := by
  refine ⟨by simp, c10_dimension_mismatch.1 [(1 : ℝ)] [(1 : ℝ), 2] (by simp), ?_⟩
  exact c10_dimension_mismatch.2 [(1 : ℝ)] [SearchRow.mk "c2" "y" 0 [1, 2]] 10
    ⟨SearchRow.mk "c2" "y" 0 [1, 2], by simp, by simp⟩


/-- Inserting an element into a list preserves a second relation `T`
provided the element is `T`-before every list element and `T`-after every
element it is not `r`-before.  This is the stability kernel of
`orderedInsert`. -/
theorem pairwise_orderedInsert_lift {α : Type} (r T : α → α → Prop) [DecidableRel r]
    (x : α) : ∀ l : List α, l.Pairwise T → (∀ y ∈ l, T x y) →
    (∀ y ∈ l, ¬r x y → T y x) → (l.orderedInsert r x).Pairwise T := by
  intro l
  induction l with
  | nil =>
    intro _ _ _
    simp
  | cons y ys ih =>
    intro hT hb ha
    rw [List.orderedInsert]
    by_cases hr : r x y
    · rw [if_pos hr]
      exact List.Pairwise.cons (fun z hz => hb z hz) hT
    · rw [if_neg hr]
      refine List.Pairwise.cons ?_ (ih (List.pairwise_cons.mp hT).2 ?_ ?_)
      · intro z hz
        rcases (List.mem_orderedInsert r).mp hz with rfl | hz'
        · exact ha y (List.mem_cons_self y ys) hr
        · exact (List.pairwise_cons.mp hT).1 z hz'
      · intro z hz
        exact hb z (List.mem_cons_of_mem y hz)
      · intro z hz hnr
        exact ha z (List.mem_cons_of_mem y hz) hnr

/-- Stability of insertion sort: any relation `T` that holds pairwise on
the input, and that holds backwards whenever the sort order `r` fails
forwards, still holds pairwise on the sorted output.  Instantiated with
`T = ties broken by input order` this is exactly stability of
JavaScript's `Array.prototype.sort`. -/
theorem pairwise_insertionSort_lift {α : Type} (r T : α → α → Prop) [DecidableRel r]
    (hvac : ∀ a b, ¬r a b → T b a) :
    ∀ l : List α, l.Pairwise T → (l.insertionSort r).Pairwise T := by
  intro l
  induction l with
  | nil =>
    intro _
    simp
  | cons x xs ih =>
    intro h
    rw [List.insertionSort]
    have h' := List.pairwise_cons.mp h
    refine pairwise_orderedInsert_lift r T x _ (ih h'.2) ?_ ?_
    · intro y hy
      exact h'.1 y (((List.perm_insertionSort r xs).mem_iff).mp hy)
    · intro y _ hnr
      exact hvac x y hnr

/-- Claim C5: whenever `searchSimilar` succeeds, its output is sorted in
descending similarity order, has length `min limit (number of stored
entries)`, consists of the top-`limit` scored entries (every entry left
out scores no higher than every entry returned), and breaks similarity
ties by recency: among equal-similarity results the newer row comes
first. -/
theorem c5_searchSimilar_ranking (q : List ℝ) (table : List SearchRow) (limit : Nat)
    (out : List ScoredRow) (h : searchSimilar q table limit = Except.ok out) :
    out.Pairwise bySimDesc ∧
    out.length = min limit table.length ∧
    (∃ rest : List ScoredRow,
      (out ++ rest).Perm (table.map (fun c => ScoredRow.mk c (cosineSimVal q c.embedding))) ∧
      ∀ x ∈ out, ∀ y ∈ rest, y.similarity ≤ x.similarity) ∧
    out.Pairwise tieByRecency := by
  obtain ⟨scored, hm0, hout⟩ :
      ∃ scored, scoreRows q (fetchByCreatedDesc table) = Except.ok scored ∧
        out = (scored.insertionSort bySimDesc).take limit := by
    unfold searchSimilar at h
    cases hm : scoreRows q (fetchByCreatedDesc table) with
    | error e =>
      rw [hm] at h
      cases h
    | ok scored =>
      rw [hm] at h
      cases h
      exact ⟨scored, rfl, rfl⟩
  have hscored := scoreRows_ok q _ scored hm0
  have hsorted : (scored.insertionSort bySimDesc).Pairwise bySimDesc :=
    List.sorted_insertionSort bySimDesc scored
  have hperm_fetch : (fetchByCreatedDesc table).Perm table :=
    List.perm_insertionSort byCreatedDesc table
  refine ⟨?_, ?_, ?_, ?_⟩
  · rw [hout]
    exact hsorted.sublist (List.take_sublist _ _)
  · rw [hout, List.length_take, List.length_insertionSort]
    rw [hscored, List.length_map, hperm_fetch.length_eq]
  · refine ⟨(scored.insertionSort bySimDesc).drop limit, ?_, ?_⟩
    · rw [hout, List.take_append_drop]
      have h1 : (scored.insertionSort bySimDesc).Perm ((fetchByCreatedDesc table).map
          (fun c => ScoredRow.mk c (cosineSimVal q c.embedding))) := by
        rw [← hscored]
        exact List.perm_insertionSort bySimDesc scored
      have h2 : ((fetchByCreatedDesc table).map
            (fun c => ScoredRow.mk c (cosineSimVal q c.embedding))).Perm
          (table.map (fun c => ScoredRow.mk c (cosineSimVal q c.embedding))) :=
        hperm_fetch.map _
      exact h1.trans h2
    · intro x hx y hy
      have hfull : ((scored.insertionSort bySimDesc).take limit ++
          (scored.insertionSort bySimDesc).drop limit).Pairwise bySimDesc := by
        rw [List.take_append_drop]
        exact hsorted
      have := (List.pairwise_append.mp hfull).2.2
      rw [hout] at hx
      exact this x hx y hy
  · have hfetch_sorted : (fetchByCreatedDesc table).Pairwise byCreatedDesc :=
      List.sorted_insertionSort byCreatedDesc table
    have hTin : scored.Pairwise tieByRecency := by
      rw [hscored]
      rw [List.pairwise_map]
      exact hfetch_sorted.imp (fun hab => fun _ => hab)
    have hT : (scored.insertionSort bySimDesc).Pairwise tieByRecency := by
      refine pairwise_insertionSort_lift bySimDesc tieByRecency ?_ scored hTin
      intro a b hn heq
      exact absurd (le_of_eq heq) hn
    rw [hout]
    exact hT.sublist (List.take_sublist _ _)

/-- Claim C5 witness: the ranking theorem applied to a one-entry store
whose single embedding matches the query dimension, with the success
hypothesis discharged by computation. -/
theorem c5_searchSimilar_ranking_witness :
    searchSimilar [(1 : ℝ)] [SearchRow.mk "c1" "x" 0 [1]] 1 =
      Except.ok [ScoredRow.mk (SearchRow.mk "c1" "x" 0 [1])
        (cosineSimVal [(1 : ℝ)] (SearchRow.mk "c1" "x" 0 [1]).embedding)] ∧
    ([ScoredRow.mk (SearchRow.mk "c1" "x" 0 [1])
        (cosineSimVal [(1 : ℝ)] (SearchRow.mk "c1" "x" 0 [1]).embedding)].Pairwise bySimDesc ∧
     [ScoredRow.mk (SearchRow.mk "c1" "x" 0 [1])
        (cosineSimVal [(1 : ℝ)] (SearchRow.mk "c1" "x" 0 [1]).embedding)].length =
       min 1 [SearchRow.mk "c1" "x" 0 [1]].length ∧
     (∃ rest : List ScoredRow,
       ([ScoredRow.mk (SearchRow.mk "c1" "x" 0 [1])
          (cosineSimVal [(1 : ℝ)] (SearchRow.mk "c1" "x" 0 [1]).embedding)] ++ rest).Perm
         ([SearchRow.mk "c1" "x" 0 [1]].map
           (fun c => ScoredRow.mk c (cosineSimVal [(1 : ℝ)] c.embedding))) ∧
       ∀ x ∈ [ScoredRow.mk (SearchRow.mk "c1" "x" 0 [1])
          (cosineSimVal [(1 : ℝ)] (SearchRow.mk "c1" "x" 0 [1]).embedding)],
         ∀ y ∈ rest, y.similarity ≤ x.similarity) ∧
     [ScoredRow.mk (SearchRow.mk "c1" "x" 0 [1])
        (cosineSimVal [(1 : ℝ)] (SearchRow.mk "c1" "x" 0 [1]).embedding)].Pairwise tieByRecency) :=
  ⟨rfl, c5_searchSimilar_ranking [(1 : ℝ)] [SearchRow.mk "c1" "x" 0 [1]] 1 _ rfl⟩

/-- Membership in the `seenIds` set after the semantic pass: exactly the
semantic ids together with the ids already seen. -/
theorem semPass_seen_mem (w : ℝ) :
    ∀ (l : List (String × ℝ)) (seen : List String) (x : String),
      x ∈ (semPass w l seen).2 ↔ x ∈ l.map Prod.fst ∨ x ∈ seen := by
  intro l
  induction l with
  | nil =>
    intro seen x
    simp [semPass]
  | cons p rest ih =>
    intro seen x
    obtain ⟨i, s⟩ := p
    by_cases hi : i ∈ seen
    · rw [show semPass w ((i, s) :: rest) seen = semPass w rest seen from by
        simp [semPass, hi]]
      rw [ih seen x]
      simp only [List.map_cons, List.mem_cons]
      constructor
      · rintro (h | h)
        · exact Or.inl (Or.inr h)
        · exact Or.inr h
      · rintro ((rfl | h) | h)
        · exact Or.inr hi
        · exact Or.inl h
        · exact Or.inr h
    · rw [show (semPass w ((i, s) :: rest) seen).2 = (semPass w rest (i :: seen)).2 from by
        simp [semPass, hi]]
      rw [ih (i :: seen) x]
      simp only [List.map_cons, List.mem_cons]
      constructor
      · rintro (h | (rfl | h))
        · exact Or.inl (Or.inr h)
        · exact Or.inl (Or.inl rfl)
        · exact Or.inr h
      · rintro ((rfl | h) | h)
        · exact Or.inr (Or.inl rfl)
        · exact Or.inl h
        · exact Or.inr (Or.inr h)

/-- With pairwise-distinct semantic ids none of which was seen, the
semantic pass pushes every semantic result once, scored
`similarity * semanticWeight`. -/
theorem semPass_entries (w : ℝ) :
    ∀ (l : List (String × ℝ)) (seen : List String),
      (l.map Prod.fst).Nodup → (∀ p ∈ l, p.1 ∉ seen) →
      (semPass w l seen).1 = l.map (fun p => BlendEntry.mk p.1 (p.2 * w)) := by
  intro l
  induction l with
  | nil =>
    intro seen _ _
    rfl
  | cons p rest ih =>
    intro seen hnd hall
    obtain ⟨i, s⟩ := p
    have hi : i ∉ seen := hall (i, s) (List.mem_cons_self _ _)
    have hnd2 : (i :: rest.map Prod.fst).Nodup := by
      simpa only [List.map_cons] using hnd
    have hnd' := List.nodup_cons.mp hnd2
    rw [show semPass w ((i, s) :: rest) seen =
        (⟨i, s * w⟩ :: (semPass w rest (i :: seen)).1, (semPass w rest (i :: seen)).2) from by
      simp [semPass, hi]]
    simp only [List.map_cons]
    congr 1
    apply ih (i :: seen) hnd'.2
    intro q hq
    rw [List.mem_cons]
    push_neg
    refine ⟨fun hqi => hnd'.1 ?_, hall q (List.mem_cons_of_mem _ hq)⟩
    rw [← hqi]
    exact List.mem_map_of_mem Prod.fst hq

/-- The recent pass never pushes an id that the semantic pass has seen. -/
theorem recPass_countP_zero (rl : Nat) (w : ℝ) :
    ∀ (l : List String) (idx : Nat) (seen : List String) (x : String), x ∈ seen →
      (recPass rl w l idx seen).countP (fun e => e.id == x) = 0 := by
  intro l
  induction l with
  | nil =>
    intro idx seen x _
    rfl
  | cons i rest ih =>
    intro idx seen x hx
    by_cases hi : i ∈ seen
    · rw [show recPass rl w (i :: rest) idx seen = recPass rl w rest (idx + 1) seen from by
        simp [recPass, hi]]
      exact ih (idx + 1) seen x hx
    · rw [show recPass rl w (i :: rest) idx seen =
          ⟨i, (1 - (idx : ℝ) / (rl : ℝ)) * (1 - w)⟩ ::
            recPass rl w rest (idx + 1) (i :: seen) from by
        simp [recPass, hi]]
      rw [List.countP_cons]
      have hne : i ≠ x := fun h => hi (h ▸ hx)
      simp only [show ((BlendEntry.mk i ((1 - (idx : ℝ) / (rl : ℝ)) * (1 - w))).id == x) = false
        from beq_eq_false_iff_ne.mpr hne, if_false, Nat.add_zero]
      exact ih (idx + 1) (i :: seen) x (List.mem_cons_of_mem i hx)

/-- A recent id not yet seen is pushed exactly once by the recent pass. -/
theorem recPass_countP_one (rl : Nat) (w : ℝ) :
    ∀ (l : List String) (idx : Nat) (seen : List String) (x : String),
      l.Nodup → x ∈ l → x ∉ seen →
      (recPass rl w l idx seen).countP (fun e => e.id == x) = 1 := by
  intro l
  induction l with
  | nil =>
    intro idx seen x _ hx _
    cases hx
  | cons i rest ih =>
    intro idx seen x hnd hx hseen
    have hnd' := List.nodup_cons.mp hnd
    by_cases hi : i ∈ seen
    · have hxr : x ∈ rest := by
        rcases List.mem_cons.mp hx with rfl | h
        · exact absurd hi hseen
        · exact h
      rw [show recPass rl w (i :: rest) idx seen = recPass rl w rest (idx + 1) seen from by
        simp [recPass, hi]]
      exact ih (idx + 1) seen x hnd'.2 hxr hseen
    · rw [show recPass rl w (i :: rest) idx seen =
          ⟨i, (1 - (idx : ℝ) / (rl : ℝ)) * (1 - w)⟩ ::
            recPass rl w rest (idx + 1) (i :: seen) from by
        simp [recPass, hi]]
      rw [List.countP_cons]
      rcases List.mem_cons.mp hx with rfl | hxr
      · rw [recPass_countP_zero rl w rest (idx + 1) (x :: seen) x (List.mem_cons_self _ _)]
        simp
      · have hne : i ≠ x := fun h => hnd'.1 (h ▸ hxr)
        have hnotin : x ∉ i :: seen := by
          rw [List.mem_cons]
          push_neg
          exact ⟨fun h => hne h.symm, hseen⟩
        rw [ih (idx + 1) (i :: seen) x hnd'.2 hxr hnotin]
        simp [beq_eq_false_iff_ne.mpr hne]

/-- Every entry the recent pass pushes for a fresh id at rank `k` carries
the temporal score of that rank. -/
theorem recPass_score (rl : Nat) (w : ℝ) :
    ∀ (l : List String) (idx : Nat) (seen : List String), l.Nodup →
      ∀ e ∈ recPass rl w l idx seen, ∀ k, ∀ hk : k < l.length,
        l.get ⟨k, hk⟩ = e.id → e.id ∉ seen →
        e.score = (1 - ((idx + k : Nat) : ℝ) / (rl : ℝ)) * (1 - w) := by
  intro l
  induction l with
  | nil =>
    intro idx seen _ e he
    exact absurd he (List.not_mem_nil e)
  | cons i rest ih =>
    intro idx seen hnd e he k hk hget hseen
    have hnd' := List.nodup_cons.mp hnd
    by_cases hi : i ∈ seen
    · rw [show recPass rl w (i :: rest) idx seen = recPass rl w rest (idx + 1) seen from by
        simp [recPass, hi]] at he
      cases k with
      | zero =>
        exfalso
        have hei : i = e.id := hget
        apply hseen
        rw [← hei]
        exact hi
      | succ k' =>
        have hk' : k' < rest.length := by
          have := hk
          simp only [List.length_cons] at this
          omega
        have hget' : rest.get ⟨k', hk'⟩ = e.id := by
          rw [← hget]
          simp
        have hres := ih (idx + 1) seen hnd'.2 e he k' hk' hget' hseen
        rw [hres]
        have harith : idx + 1 + k' = idx + (k' + 1) := by omega
        rw [harith]
    · rw [show recPass rl w (i :: rest) idx seen =
          ⟨i, (1 - (idx : ℝ) / (rl : ℝ)) * (1 - w)⟩ ::
            recPass rl w rest (idx + 1) (i :: seen) from by
        simp [recPass, hi]] at he
      rcases List.mem_cons.mp he with rfl | he'
      · cases k with
        | zero => simp
        | succ k' =>
          exfalso
          have hk' : k' < rest.length := by
            have := hk
            simp only [List.length_cons] at this
            omega
          have : rest.get ⟨k', hk'⟩ = i := by
            rw [show (BlendEntry.mk i ((1 - (idx : ℝ) / (rl : ℝ)) * (1 - w))).id = i from rfl]
              at hget
            rw [← hget]
            simp
          exact hnd'.1 (this ▸ rest.get_mem k' hk')
      · have hne : e.id ≠ i := by
          intro h
          have hz := recPass_countP_zero rl w rest (idx + 1) (i :: seen) i
            (List.mem_cons_self _ _)
          have hfalse := List.countP_eq_zero.mp hz e he'
          simp [h] at hfalse
        cases k with
        | zero =>
          exfalso
          exact hne hget.symm
        | succ k' =>
          have hk' : k' < rest.length := by
            have := hk
            simp only [List.length_cons] at this
            omega
          have hget' : rest.get ⟨k', hk'⟩ = e.id := by
            rw [← hget]
            simp
          have hnotin : e.id ∉ i :: seen := by
            rw [List.mem_cons]
            push_neg
            exact ⟨hne, hseen⟩
          have hres := ih (idx + 1) (i :: seen) hnd'.2 e he' k' hk' hget' hnotin
          rw [hres]
          have harith : idx + 1 + k' = idx + (k' + 1) := by omega
          rw [harith]

/-- In a list of pairs with pairwise-distinct first components, exactly
one pair carries the first component of a member. -/
theorem countP_fst_eq_one {l : List (String × ℝ)} {p : String × ℝ}
    (hnd : (l.map Prod.fst).Nodup) (hp : p ∈ l) :
    l.countP (fun q => q.1 == p.1) = 1 := by
  induction l with
  | nil => cases hp
  | cons q rest ih =>
    have hnd2 : (q.1 :: rest.map Prod.fst).Nodup := by
      simpa only [List.map_cons] using hnd
    have hnd' := List.nodup_cons.mp hnd2
    have hndr : (rest.map Prod.fst).Nodup := hnd'.2
    rw [List.countP_cons]
    rcases List.mem_cons.mp hp with rfl | hpr
    · have hz : rest.countP (fun r => r.1 == p.1) = 0 := by
        rw [List.countP_eq_zero]
        intro r hr hbad
        apply hnd'.1
        rw [← show r.1 = p.1 from by simpa using hbad]
        exact List.mem_map_of_mem Prod.fst hr
      rw [hz]
      simp
    · have hne : q.1 ≠ p.1 := by
        intro h
        apply hnd'.1
        rw [h]
        exact List.mem_map_of_mem Prod.fst hpr
      rw [ih hndr hpr]
      simp [beq_eq_false_iff_ne.mpr hne]

/-- Claim C4: in `getRelevantContext`, for every pair of semantic and
recent result lists (with distinct ids within each list, as delivered by
the two database queries): an entry appearing in both lists appears
exactly once in `combined` and carries the semantic score (its similarity
times `semanticWeight`); an entry appearing only in the recent list at
rank `k` appears exactly once and carries score
`(1 - k / recentLimit) * (1 - semanticWeight)`; and `combined` is sorted
descending by the blended score. -/
theorem c4_blend_ordering (semantic : List (String × ℝ)) (recent : List String)
    (recentLimit : Nat) (w : ℝ)
    (hsem : (semantic.map Prod.fst).Nodup) (hrec : recent.Nodup) :
    (∀ p ∈ semantic, p.1 ∈ recent →
      ((getRelevantCombined semantic recent recentLimit w).countP
          (fun e => e.id == p.1) = 1 ∧
        ∀ e ∈ getRelevantCombined semantic recent recentLimit w,
          e.id = p.1 → e.score = p.2 * w)) ∧
    (∀ (k : Nat) (hk : k < recent.length),
      recent.get ⟨k, hk⟩ ∉ semantic.map Prod.fst →
      ((getRelevantCombined semantic recent recentLimit w).countP
          (fun e => e.id == recent.get ⟨k, hk⟩) = 1 ∧
        ∀ e ∈ getRelevantCombined semantic recent recentLimit w,
          e.id = recent.get ⟨k, hk⟩ →
            e.score = (1 - (k : ℝ) / (recentLimit : ℝ)) * (1 - w))) ∧
    (getRelevantCombined semantic recent recentLimit w).Pairwise byScoreDesc := by
  have hsementries := semPass_entries w semantic [] hsem (by simp)
  have hseen_mem : ∀ x, x ∈ (semPass w semantic []).2 ↔ x ∈ semantic.map Prod.fst := by
    intro x
    rw [semPass_seen_mem]
    simp
  have hcombined_perm : (getRelevantCombined semantic recent recentLimit w).Perm
      ((semPass w semantic []).1 ++
        recPass recentLimit w recent 0 (semPass w semantic []).2) := by
    unfold getRelevantCombined
    exact List.perm_insertionSort byScoreDesc _
  have hcount : ∀ x, (getRelevantCombined semantic recent recentLimit w).countP
      (fun e => e.id == x) =
      ((semPass w semantic []).1).countP (fun e => e.id == x) +
        (recPass recentLimit w recent 0 (semPass w semantic []).2).countP
          (fun e => e.id == x) := by
    intro x
    rw [hcombined_perm.countP_eq, List.countP_append]
  have hmem : ∀ e, e ∈ getRelevantCombined semantic recent recentLimit w ↔
      e ∈ (semPass w semantic []).1 ∨
        e ∈ recPass recentLimit w recent 0 (semPass w semantic []).2 := by
    intro e
    rw [hcombined_perm.mem_iff, List.mem_append]
  refine ⟨?_, ?_, ?_⟩
  · intro p hp hprec
    have hxseen : p.1 ∈ (semPass w semantic []).2 :=
      (hseen_mem p.1).mpr (List.mem_map_of_mem Prod.fst hp)
    constructor
    · have h1 : ((semPass w semantic []).1).countP (fun e => e.id == p.1) = 1 := by
        rw [hsementries, List.countP_map]
        exact countP_fst_eq_one hsem hp
      have h2 : (recPass recentLimit w recent 0 (semPass w semantic []).2).countP
          (fun e => e.id == p.1) = 0 :=
        recPass_countP_zero _ _ _ _ _ _ hxseen
      rw [hcount p.1, h1, h2]
    · intro e he hid
      rcases (hmem e).mp he with hs | hr
      · rw [hsementries] at hs
        obtain ⟨q, hq, rfl⟩ := List.mem_map.mp hs
        have hqp : q = p := List.inj_on_of_nodup_map hsem hq hp hid
        rw [hqp]
      · exfalso
        have h2 := recPass_countP_zero recentLimit w recent 0
          (semPass w semantic []).2 p.1 hxseen
        have hfalse := List.countP_eq_zero.mp h2 e hr
        simp [hid] at hfalse
  · intro k hk hnot
    have hxseen : recent.get ⟨k, hk⟩ ∉ (semPass w semantic []).2 := fun h =>
      hnot ((hseen_mem _).mp h)
    have h1 : ((semPass w semantic []).1).countP
        (fun e => e.id == recent.get ⟨k, hk⟩) = 0 := by
      rw [hsementries, List.countP_map, List.countP_eq_zero]
      intro q hq hbad
      apply hnot
      rw [← show q.1 = recent.get ⟨k, hk⟩ from by simpa using hbad]
      exact List.mem_map_of_mem Prod.fst hq
    constructor
    · have h2 : (recPass recentLimit w recent 0 (semPass w semantic []).2).countP
          (fun e => e.id == recent.get ⟨k, hk⟩) = 1 :=
        recPass_countP_one _ _ _ _ _ _ hrec (recent.get_mem k hk) hxseen
      rw [hcount _, h1, h2]
    · intro e he hid
      rcases (hmem e).mp he with hs | hr
      · exfalso
        have hfalse := List.countP_eq_zero.mp h1 e hs
        simp [hid] at hfalse
      · have hres := recPass_score recentLimit w recent 0 (semPass w semantic []).2
          hrec e hr k hk hid.symm (by rw [hid]; exact hxseen)
        rw [hres]
        norm_num
  · unfold getRelevantCombined
    exact List.sorted_insertionSort byScoreDesc _

/-- Claim C4 witness: the blend theorem applied to the concrete semantic
list [("a", 1/2)] and recent list ["a", "b"], with both distinctness
hypotheses discharged by computation. -/
theorem c4_blend_ordering_witness :
    (([(("a" : String), (1 : ℝ) / 2)].map Prod.fst).Nodup) ∧
    (["a", "b"] : List String).Nodup ∧
    (getRelevantCombined [("a", (1 : ℝ) / 2)] ["a", "b"] 5 (7 / 10)).Pairwise byScoreDesc :=
  ⟨by decide, by decide,
    (c4_blend_ordering [("a", (1 : ℝ) / 2)] ["a", "b"] 5 (7 / 10)
      (by decide) (by decide)).2.2⟩

/-- When the switch body succeeds, the returned record carries the
requested tool name. -/
theorem executeToolExc_toolName (toolName : String) (p : ToolParams) (env : ToolEnv) :
    ∀ r, executeToolExc toolName p env = Except.ok r → r.toolName = toolName := by
  intro r h
  unfold executeToolExc at h
  split_ifs at h with h1 h2 h3 h4
  · cases hx : getDirections env p.origin p.destination p.departureTime with
    | error e =>
      rw [hx] at h
      cases h
    | ok v =>
      rw [hx] at h
      cases h
      rfl
  · cases hx : searchPlaces env p.location p.query p.radius with
    | error e =>
      rw [hx] at h
      cases h
    | ok v =>
      rw [hx] at h
      cases h
      rfl
  · cases hx : getWeather env p.location p.date with
    | error e =>
      rw [hx] at h
      cases h
    | ok v =>
      rw [hx] at h
      cases h
      rfl
  · cases h
    rfl
  · cases h
    rfl

/-- Claim C8: `executeTool` never lets an exception escape — the thrown
errors of the switch body are caught and returned as the `error` string
of the `ToolResult` — and every expected failure mode (unknown tool name,
missing credential for each keyed tool, provider error, no route found,
no geocode match) is observable as data on the returned `ToolResult`. -/
theorem c8_executeTool_failures_as_data (toolName : String) (p : ToolParams) (env : ToolEnv) :
    ((executeTool toolName p env).toolName = toolName) ∧
    (∀ e, executeToolExc toolName p env = Except.error e →
      executeTool toolName p env = ToolResult.mk toolName none (some e)) ∧
    (toolName ∉ knownToolNames →
      (executeTool toolName p env).error = some ("Unknown tool: " ++ toolName)) ∧
    (toolName = "get_directions" → env.googleMapsKey = none →
      (executeTool toolName p env).reportsFailure) ∧
    (toolName = "get_directions" → ∀ key, env.googleMapsKey = some key →
      ∀ e, env.routesResponse = Except.error e →
      (executeTool toolName p env).error = some ("Google Routes API error: " ++ e)) ∧
    (toolName = "get_directions" → ∀ key, env.googleMapsKey = some key →
      env.routesResponse = Except.ok [] →
      (executeTool toolName p env).reportsFailure) ∧
    (toolName = "search_places" → env.googleMapsKey = none →
      (executeTool toolName p env).reportsFailure) ∧
    (toolName = "get_weather" → env.weatherKey = none →
      (executeTool toolName p env).reportsFailure) ∧
    (toolName = "get_weather" → ∀ key, env.weatherKey = some key →
      env.geocodeResponse = Except.ok [] →
      (executeTool toolName p env).reportsFailure) := by
  refine ⟨?_, ?_, ?_, ?_, ?_, ?_, ?_, ?_, ?_⟩
  · unfold executeTool
    cases hex : executeToolExc toolName p env with
    | ok r => exact executeToolExc_toolName toolName p env r hex
    | error e => rfl
  · intro e h
    unfold executeTool
    rw [h]
  · intro hn
    have h1 : toolName ≠ "get_directions" := fun h => hn (by rw [h]; simp [knownToolNames])
    have h2 : toolName ≠ "search_places" := fun h => hn (by rw [h]; simp [knownToolNames])
    have h3 : toolName ≠ "get_weather" := fun h => hn (by rw [h]; simp [knownToolNames])
    have h4 : toolName ≠ "get_current_time" := fun h => hn (by rw [h]; simp [knownToolNames])
    unfold executeTool executeToolExc
    rw [if_neg h1, if_neg h2, if_neg h3, if_neg h4]
  · intro ht hkey
    subst ht
    have hval : executeTool "get_directions" p env = ToolResult.mk "get_directions"
        (some (ToolPayload.configError "Google Maps API key not configured"
          "Set GOOGLE_MAPS_API_KEY in .env to enable directions")) none := by
      unfold executeTool executeToolExc getDirections
      rw [hkey]
      rfl
    rw [hval]
    exact Or.inr (Or.inl ⟨_, _, rfl⟩)
  · intro ht key hkey e herr
    subst ht
    unfold executeTool executeToolExc getDirections
    rw [hkey, herr]
    rfl
  · intro ht key hkey hroutes
    subst ht
    have hval : executeTool "get_directions" p env = ToolResult.mk "get_directions"
        (some (ToolPayload.notFound "No routes found"
          "Could not find a route between the locations")) none := by
      unfold executeTool executeToolExc getDirections
      rw [hkey, hroutes]
      rfl
    rw [hval]
    exact Or.inr (Or.inr ⟨_, _, rfl⟩)
  · intro ht hkey
    subst ht
    have hval : executeTool "search_places" p env = ToolResult.mk "search_places"
        (some (ToolPayload.configError "Google Maps API key not configured"
          "Set GOOGLE_MAPS_API_KEY in .env to enable place search")) none := by
      unfold executeTool executeToolExc searchPlaces
      rw [hkey]
      rfl
    rw [hval]
    exact Or.inr (Or.inl ⟨_, _, rfl⟩)
  · intro ht hkey
    subst ht
    have hval : executeTool "get_weather" p env = ToolResult.mk "get_weather"
        (some (ToolPayload.configError "Weather API key not configured"
          "Set WEATHER_API_KEY in .env to enable weather forecast")) none := by
      unfold executeTool executeToolExc getWeather
      rw [hkey]
      rfl
    rw [hval]
    exact Or.inr (Or.inl ⟨_, _, rfl⟩)
  · intro ht key hkey hgeo
    subst ht
    have hval : executeTool "get_weather" p env = ToolResult.mk "get_weather"
        (some (ToolPayload.notFound "Location not found" "Could not geocode location")) none := by
      unfold executeTool executeToolExc getWeather
      rw [hkey, hgeo]
      rfl
    rw [hval]
    exact Or.inr (Or.inr ⟨_, _, rfl⟩)

/-- Claim C8 witness: the failure-as-data theorem applied at concrete
inputs — an unknown tool name, and `get_directions` against an
environment with no Google Maps credential. -/
theorem c8_executeTool_failures_as_data_witness :
    ("bogus_tool" ∉ knownToolNames) ∧
    (executeTool "bogus_tool" c8Params c8Env).error =
      some ("Unknown tool: " ++ "bogus_tool") ∧
    c8Env.googleMapsKey = none ∧
    (executeTool "get_directions" c8Params c8Env).reportsFailure :=
  ⟨by decide,
   (c8_executeTool_failures_as_data "bogus_tool" c8Params c8Env).2.2.1 (by decide),
   rfl,
   (c8_executeTool_failures_as_data "get_directions" c8Params c8Env).2.2.2.1 rfl rfl⟩

/-- Claim C9: a status update with no status at all is rejected with 400;
updating to SNOOZED without `snoozeUntil` is rejected as a validation
error (surfacing as the handler's error response); and any update whose
required fields are present — a status, plus `snoozeUntil` whenever the
status is SNOOZED — is accepted and applied. -/
theorem c9_snooze_validation (req : StatusRequest) :
    (req.status = none →
      patchFeedStatusHandler req = StatusResponse.badRequest "Status is required") ∧
    (req.status = some FeedItemStatus.SNOOZED → req.snoozeUntil = none →
      patchFeedStatusHandler req =
        StatusResponse.serverError "Failed to update feed item status") ∧
    (∀ s, req.status = some s → (s = FeedItemStatus.SNOOZED → req.snoozeUntil ≠ none) →
      patchFeedStatusHandler req = StatusResponse.ok s req.snoozeUntil) := by
  refine ⟨?_, ?_, ?_⟩
  · intro h
    unfold patchFeedStatusHandler
    rw [h]
  · intro hs hn
    unfold patchFeedStatusHandler
    rw [hs]
    dsimp only
    unfold updateFeedItemStatus
    rw [if_pos ⟨rfl, hn⟩]
  · intro s hs hcond
    unfold patchFeedStatusHandler
    rw [hs]
    dsimp only
    unfold updateFeedItemStatus
    rw [if_neg (fun hc => hcond hc.1 hc.2)]

/-- Claim C9 witness: the validation theorem applied to three concrete
requests — no status, SNOOZED without snoozeUntil, and VIEWED. -/
theorem c9_snooze_validation_witness :
    ((StatusRequest.mk none none).status = none) ∧
    patchFeedStatusHandler (StatusRequest.mk none none) =
      StatusResponse.badRequest "Status is required" ∧
    patchFeedStatusHandler (StatusRequest.mk (some FeedItemStatus.SNOOZED) none) =
      StatusResponse.serverError "Failed to update feed item status" ∧
    patchFeedStatusHandler (StatusRequest.mk (some FeedItemStatus.VIEWED) none) =
      StatusResponse.ok FeedItemStatus.VIEWED none :=
  ⟨rfl,
   (c9_snooze_validation (StatusRequest.mk none none)).1 rfl,
   (c9_snooze_validation (StatusRequest.mk (some FeedItemStatus.SNOOZED) none)).2.1 rfl rfl,
   (c9_snooze_validation (StatusRequest.mk (some FeedItemStatus.VIEWED) none)).2.2
     FeedItemStatus.VIEWED rfl (fun h => FeedItemStatus.noConfusion h)⟩

/-- A skipped item (`persistStep = none`) on a valid index means the
entry's key was already present. -/
theorem persistStep_none (keys : List String) (entries : List FeedCtx) (idx : Nat)
    (e : FeedCtx) (h0 : idx ≠ 0) (hg : entries.get? (idx - 1) = some e)
    (hs : persistStep keys entries idx = none) : feedSourceKey e ∈ keys := by
  unfold persistStep at hs
  rw [if_neg h0, hg] at hs
  dsimp only at hs
  by_cases hk : feedSourceKey e ∈ keys
  · exact hk
  · rw [if_neg hk] at hs
    cases hs

/-- A persisted item yields exactly the fresh key of its entry. -/
theorem persistStep_some (keys : List String) (entries : List FeedCtx) (idx : Nat)
    (k : String) (hs : persistStep keys entries idx = some k) :
    (∃ e, entries.get? (idx - 1) = some e ∧ k = feedSourceKey e) ∧ k ∉ keys := by
  unfold persistStep at hs
  by_cases h0 : idx = 0
  · rw [if_pos h0] at hs
    cases hs
  · rw [if_neg h0] at hs
    cases hg : entries.get? (idx - 1) with
    | none =>
      rw [hg] at hs
      cases hs
    | some e =>
      rw [hg] at hs
      dsimp only at hs
      by_cases hk : feedSourceKey e ∈ keys
      · rw [if_pos hk] at hs
        cases hs
      · rw [if_neg hk] at hs
        cases hs
        exact ⟨⟨e, rfl, rfl⟩, hk⟩

/-- The persist loop only ever adds feed keys. -/
theorem persistItems_keys_mono (entries : List FeedCtx) :
    ∀ (idxs : List Nat) (keys : List String) (x : String), x ∈ keys →
      x ∈ (persistItems keys entries idxs).2.2 := by
  intro idxs
  induction idxs with
  | nil =>
    intro keys x hx
    exact hx
  | cons idx rest ih =>
    intro keys x hx
    unfold persistItems
    cases hs : persistStep keys entries idx with
    | none => exact ih keys x hx
    | some k => exact ih (k :: keys) x (List.mem_cons_of_mem _ hx)

/-- After the persist loop, every entry referenced by a valid item index
has its composite key among the feed keys. -/
theorem persistItems_covers (entries : List FeedCtx) :
    ∀ (idxs : List Nat) (keys : List String) (idx : Nat) (e : FeedCtx),
      idx ∈ idxs → idx ≠ 0 → entries.get? (idx - 1) = some e →
      feedSourceKey e ∈ (persistItems keys entries idxs).2.2 := by
  intro idxs
  induction idxs with
  | nil =>
    intro keys idx e hmem _ _
    cases hmem
  | cons i rest ih =>
    intro keys idx e hmem hnz hg
    unfold persistItems
    rcases List.mem_cons.mp hmem with rfl | hmem'
    · cases hs : persistStep keys entries idx with
      | none =>
        exact persistItems_keys_mono entries rest keys _
          (persistStep_none keys entries idx e hnz hg hs)
      | some k =>
        obtain ⟨⟨e', hg', hke⟩, -⟩ := persistStep_some keys entries idx k hs
        have hee : e' = e := by
          rw [hg] at hg'
          cases hg'
          rfl
        rw [show feedSourceKey e = k from by rw [hke, hee]]
        exact persistItems_keys_mono entries rest _ _ (List.mem_cons_self _ _)
    · cases hs : persistStep keys entries i with
      | none => exact ih keys idx e hmem' hnz hg
      | some k => exact ih (k :: keys) idx e hmem' hnz hg

/-- The persist loop preserves distinctness of the feed keys: the
uniqueness guard never inserts a key twice. -/
theorem persistItems_nodup (entries : List FeedCtx) :
    ∀ (idxs : List Nat) (keys : List String), keys.Nodup →
      (persistItems keys entries idxs).2.2.Nodup := by
  intro idxs
  induction idxs with
  | nil =>
    intro keys hnd
    exact hnd
  | cons idx rest ih =>
    intro keys hnd
    unfold persistItems
    cases hs : persistStep keys entries idx with
    | none => exact ih keys hnd
    | some k =>
      obtain ⟨-, hk⟩ := persistStep_some keys entries idx k hs
      exact ih (k :: keys) (List.nodup_cons.mpr ⟨hk, hnd⟩)

/-- Claim C2: if the generation model of the first run emits one item for
every new excerpt (every 1-based index is referenced), then with no
ContextEntry rows added between two consecutive runs the second run
returns generated=0, skipped equal to the number of rows loaded and
errors=0, and leaves the store untouched; and independently of the
model, a generation run never creates a second FeedItem key for a
ContextEntry that already has one: the composite keys stay pairwise
distinct. -/
theorem c2_feed_idempotency (model1 model2 : List FeedCtx → List Nat) (db : FeedDb)
    (hcov : ∀ k, 1 ≤ k → k ≤ (newEntriesOf db).length → k ∈ model1 (newEntriesOf db)) :
    ((generateNewFeedItems model1 db).2.contexts = db.contexts) ∧
    ((generateNewFeedItems model2 (generateNewFeedItems model1 db).2).1 =
      GenCounts.mk 0 (loadedOf (generateNewFeedItems model1 db).2).length 0) ∧
    ((generateNewFeedItems model2 (generateNewFeedItems model1 db).2).2 =
      (generateNewFeedItems model1 db).2) ∧
    (∀ (m : List FeedCtx → List Nat) (d : FeedDb), d.feedKeys.Nodup →
      (generateNewFeedItems m d).2.feedKeys.Nodup) := by
  have hclause4 : ∀ (m : List FeedCtx → List Nat) (d : FeedDb), d.feedKeys.Nodup →
      (generateNewFeedItems m d).2.feedKeys.Nodup := by
    intro m d hnd
    unfold generateNewFeedItems
    by_cases he : (newEntriesOf d).isEmpty = true
    · rw [if_pos he]
      exact hnd
    · rw [if_neg he]
      exact persistItems_nodup _ _ _ hnd
  by_cases hempty : (newEntriesOf db).isEmpty = true
  · have hdb1 : (generateNewFeedItems model1 db).2 = db := by
      unfold generateNewFeedItems
      rw [if_pos hempty]
    refine ⟨by rw [hdb1], ?_, ?_, hclause4⟩
    · rw [hdb1]
      unfold generateNewFeedItems
      rw [if_pos hempty]
    · rw [hdb1]
      unfold generateNewFeedItems
      rw [if_pos hempty]
  · have hdb1 : (generateNewFeedItems model1 db).2 = FeedDb.mk db.contexts
        (persistItems db.feedKeys (newEntriesOf db) (model1 (newEntriesOf db))).2.2 := by
      unfold generateNewFeedItems
      rw [if_neg hempty]
    have hold : ∀ x ∈ db.feedKeys,
        x ∈ (persistItems db.feedKeys (newEntriesOf db) (model1 (newEntriesOf db))).2.2 :=
      fun x hx => persistItems_keys_mono _ _ _ _ hx
    have hnew : ∀ e ∈ newEntriesOf db,
        feedSourceKey e ∈
          (persistItems db.feedKeys (newEntriesOf db) (model1 (newEntriesOf db))).2.2 := by
      intro e he
      obtain ⟨n, hn⟩ := List.mem_iff_get.mp he
      have hlt := n.isLt
      have hidx : (n.1 + 1) ∈ model1 (newEntriesOf db) :=
        hcov (n.1 + 1) (by omega) (by omega)
      refine persistItems_covers (newEntriesOf db) _ db.feedKeys (n.1 + 1) e hidx
        (by omega) ?_
      show (newEntriesOf db).get? n.1 = some e
      rw [List.get?_eq_get n.isLt]
      exact congrArg some hn
    have hall : ∀ e ∈ loadedOf db,
        feedSourceKey e ∈
          (persistItems db.feedKeys (newEntriesOf db) (model1 (newEntriesOf db))).2.2 := by
      intro e he
      by_cases hc : db.feedKeys.contains (feedSourceKey e) = true
      · exact hold _ (by simpa using hc)
      · apply hnew
        unfold newEntriesOf
        rw [List.mem_filter]
        refine ⟨he, ?_⟩
        have hfalse : db.feedKeys.contains (feedSourceKey e) = false := by
          simpa using hc
        rw [hfalse]
        rfl
    have hempty2 : (newEntriesOf (FeedDb.mk db.contexts
        (persistItems db.feedKeys (newEntriesOf db)
          (model1 (newEntriesOf db))).2.2)).isEmpty = true := by
      rw [List.isEmpty_iff]
      unfold newEntriesOf loadedOf
      rw [List.filter_eq_nil_iff]
      intro e he
      dsimp only at he ⊢
      have hcont : (persistItems db.feedKeys (newEntriesOf db)
          (model1 (newEntriesOf db))).2.2.contains (feedSourceKey e) = true := by
        have hkmem := hall e he
        simpa using hkmem
      unfold newEntriesOf loadedOf at hcont
      rw [hcont]
      simp
    refine ⟨by rw [hdb1], ?_, ?_, hclause4⟩
    · rw [hdb1]
      unfold generateNewFeedItems
      rw [if_pos hempty2]
    · rw [hdb1]
      unfold generateNewFeedItems
      rw [if_pos hempty2]

/-- Claim C2 witness: the idempotency theorem applied to a one-row store
with a covering generation model, the coverage hypothesis discharged by
computation. -/
theorem c2_feed_idempotency_witness :
    (∀ k, 1 ≤ k → k ≤ (newEntriesOf c2Db).length → k ∈ c2Model (newEntriesOf c2Db)) ∧
    ((generateNewFeedItems c2Model c2Db).2.contexts = c2Db.contexts) ∧
    ((generateNewFeedItems c2Model (generateNewFeedItems c2Model c2Db).2).1 =
      GenCounts.mk 0 (loadedOf (generateNewFeedItems c2Model c2Db).2).length 0) := by
  have hcov : ∀ k, 1 ≤ k → k ≤ (newEntriesOf c2Db).length →
      k ∈ c2Model (newEntriesOf c2Db) := by
    intro k h1 h2
    have hl : (newEntriesOf c2Db).length = 1 := by decide
    rw [hl] at h2
    have hk : k = 1 := by omega
    subst hk
    decide
  have h := c2_feed_idempotency c2Model c2Model c2Db hcov
  exact ⟨hcov, h.1, h.2.1⟩

end Friday
